import Mathlib

/-!
Verification development for the renter-side chunk download engine
(`modules/renter/downloadchunk.go`).  The Go code is shallowly embedded:
the `unfinishedDownloadChunk` struct becomes the structure `UDC`, its
methods become pure state-transforming functions, Go `int` fields become
`Int`, Go `uint64` fields become `Nat` (with explicit two's-complement
conversion `u64` where the source casts an `int` to `uint64`), and the
goroutine-spawning / memory-manager side effects become explicit outputs
(`CleanUpResult.spawned`, `CleanUpResult.returned`).
-/

namespace DownloadChunk

/-- Errors relevant to the downloadchunk code.  `notEnoughWorkers` embeds
`errNotEnoughWorkers`; `destinationWrite` stands for an error returned by
`destination.WritePieces`; `other` covers any further error value.
The `errors.AddContext` / `fmt.Errorf` wrapping performed by the source
preserves the underlying cause and is elided here. -/
inductive ChunkErr where
  | notEnoughWorkers
  | destinationWrite
  | other (code : Nat)
deriving DecidableEq

/-- Embedding of the `modules.ErasureCoder` interface: only the methods the
downloadchunk code consults.  `supportsPartialEncoding = some segmentSize`
embeds `SupportsPartialEncoding() == (segmentSize, true)`, `none` embeds a
`false` second return. -/
structure ErasureCoder where
  minPieces : Nat
  numPieces : Nat
  supportsPartialEncoding : Option Nat
deriving DecidableEq

/-- The fields of the parent `download` object that `downloadchunk.go`
touches: `chunksRemaining` (a Go `int`), the terminal error, and whether
`markComplete` has been signalled. -/
structure Download where
  chunksRemaining : Int
  err : Option ChunkErr
  completeSignaled : Bool
deriving DecidableEq

/-- Raw piece data. -/
abbrev Bytes := List Nat

/-- Embedding of the mutable and claim-relevant static fields of
`unfinishedDownloadChunk`.  Go `int` counters are `Int` (they may be
decremented below zero by the source operations), Go `uint64` values are
`Nat`.  `destination = none` embeds a nil destination;
`physicalChunkData` entries of `none` embed nil piece slices, and the empty
list embeds a nil slice.  Workers are identified by `Nat` ids. -/
structure UDC where
  destination : Option Nat
  erasureCode : ErasureCoder
  staticPieceSize : Nat
  staticOverdrive : Int
  completedPieces : List Bool
  failed : Bool
  physicalChunkData : List (Option Bytes)
  pieceUsage : List Bool
  piecesCompleted : Int
  piecesRegistered : Int
  recoveryComplete : Bool
  workersRemaining : Int
  workersStandby : List Nat
  memoryAllocated : Nat
  download : Download
deriving DecidableEq

/-- Two to the sixty-fourth, the modulus of Go `uint64` arithmetic. -/
def U64 : Nat := 2 ^ 64

/-- Go conversion `uint64(x)` applied to an `int` value: two's-complement
reinterpretation, i.e. `x` modulo `2^64` as a natural number. -/
def u64 (x : Int) : Nat := (x % (U64 : Int)).toNat

/-- Go `uint64` multiplication (wraps modulo `2^64`). -/
def u64mul (a b : Nat) : Nat := a * b % U64

/-- Modelled from the spec: `download.managedFail` is not part of the
provided source.  Per section 7 of the spec, chunk-level errors fail the
download with first-error-wins semantics. -/
def managedFail (e : ChunkErr) (d : Download) : Download :=
  if d.err.isSome then d else { d with err := some e }

/-- Modelled from the spec: `download.markComplete` is not part of the
provided source.  Per section 4.3 it signals completion of the download. -/
def markComplete (d : Download) : Download :=
  { d with completeSignaled := true }

/-- Embedding of `(*unfinishedDownloadChunk).fail`: set the chunk status to
failed, mark recovery complete, wipe every physical piece buffer, fail the
parent download, and nil out the destination. -/
def fail (e : ChunkErr) (s : UDC) : UDC :=
  { s with
    failed := true
    recoveryComplete := true
    physicalChunkData := s.physicalChunkData.map (fun _ => none)
    download := managedFail e s.download
    destination := none }

/-- Embedding of `(*unfinishedDownloadChunk).returnMemory`: compute the
source's cascading `maxMemory` and return the excess, yielding the updated
chunk and the number of bytes handed back to the memory manager. -/
def returnMemory (s : UDC) : UDC × Nat :=
  let maxMemory := u64mul (u64 (s.workersRemaining + s.piecesCompleted)) s.staticPieceSize
  let maxMemory := if s.piecesCompleted ≥ (s.erasureCode.minPieces : Int) then
    u64mul (u64 (s.piecesCompleted + s.piecesRegistered)) s.staticPieceSize else maxMemory
  let maxMemory := if s.recoveryComplete then
    u64mul (u64 s.piecesRegistered) s.staticPieceSize else maxMemory
  if s.memoryAllocated > maxMemory then
    ({ s with memoryAllocated := maxMemory }, s.memoryAllocated - maxMemory)
  else
    (s, 0)

/-- The used-memory bound of the source's `returnMemory`, written as a
single three-phase case split (recovery complete / enough pieces completed /
still fetching).  This is the reference formula the `returnMemory`
embedding is proved against. -/
def usedMemory (s : UDC) : Nat :=
  if s.recoveryComplete then
    u64mul (u64 s.piecesRegistered) s.staticPieceSize
  else if s.piecesCompleted ≥ (s.erasureCode.minPieces : Int) then
    u64mul (u64 (s.piecesCompleted + s.piecesRegistered)) s.staticPieceSize
  else
    u64mul (u64 (s.workersRemaining + s.piecesCompleted)) s.staticPieceSize

/-- A chunk with its memory allocation clamped to the used-memory bound;
the shape every `returnMemory` call leaves the chunk in. -/
def clampMemory (s : UDC) : UDC :=
  { s with memoryAllocated := min s.memoryAllocated (usedMemory s) }

/-- The two-phase used-memory formula exactly as the spec (section 3)
states it: `(workersRemaining + piecesCompleted) × pieceSize` before
recovery is complete and `piecesRegistered × pieceSize` after. -/
def claimedMaxMemory (s : UDC) : Nat :=
  if s.recoveryComplete then
    u64mul (u64 s.piecesRegistered) s.staticPieceSize
  else
    u64mul (u64 (s.workersRemaining + s.piecesCompleted)) s.staticPieceSize

/-- Result of `managedCleanUp`: the updated chunk, the bytes returned to
the memory manager, the standby workers dispatched in fresh tasks
(`go worker.threadedPerformDownloadChunkJob(udc)` in the source), and
whether the dispatch branch was taken. -/
structure CleanUpResult where
  udc : UDC
  returned : Nat
  spawned : List Nat
  dispatched : Bool
deriving DecidableEq

/-- Embedding of `(*unfinishedDownloadChunk).managedCleanUp`: fail the
chunk if it is newly starved of workers, return excess memory, and if the
chunk is neither failed nor complete and wants more registered pieces,
move every standby worker off the list and dispatch it. -/
def managedCleanUp (s : UDC) : CleanUpResult :=
  let s1 := if s.workersRemaining + s.piecesCompleted < (s.erasureCode.minPieces : Int) ∧
      s.failed = false then fail ChunkErr.notEnoughWorkers s else s
  let rm := returnMemory s1
  let s2 := rm.1
  if s2.failed then { udc := s2, returned := rm.2, spawned := [], dispatched := false }
  else
    let chunkComplete := s2.piecesCompleted ≥ (s2.erasureCode.minPieces : Int)
    let desired := (s2.erasureCode.minPieces : Int) + s2.staticOverdrive - s2.piecesCompleted
    if ¬chunkComplete ∧ s2.piecesRegistered < desired then
      { udc := { s2 with workersStandby := [] }, returned := rm.2,
        spawned := s2.workersStandby, dispatched := true }
    else
      { udc := s2, returned := rm.2, spawned := [], dispatched := false }

/-- Embedding of `(*unfinishedDownloadChunk).managedFinalizeRecovery`: nil
out the physical chunk data, mark recovery complete, decrement the parent
download's `chunksRemaining`, and mark the download complete when it
reaches zero. -/
def managedFinalizeRecovery (s : UDC) : UDC :=
  let d := { s.download with chunksRemaining := s.download.chunksRemaining - 1 }
  let d := if d.chunksRemaining = 0 then markComplete d else d
  { s with physicalChunkData := [], recoveryComplete := true, download := d }

/-- Embedding of `(*unfinishedDownloadChunk).managedRemoveWorker`:
decrement `workersRemaining` (touching nothing else) and then clean up. -/
def managedRemoveWorker (s : UDC) : CleanUpResult :=
  managedCleanUp { s with workersRemaining := s.workersRemaining - 1 }

/-- Embedding of `(*unfinishedDownloadChunk).markPieceCompleted` (the
mutation; the source additionally carries a debug-build sanity check that
recounts `completedPieces`, which mutates nothing). -/
def markPieceCompleted (s : UDC) (pieceIndex : Nat) : UDC :=
  { s with
    completedPieces := s.completedPieces.set pieceIndex true
    piecesCompleted := s.piecesCompleted + 1 }

/-- Embedding of `(*unfinishedDownloadChunk).threadedRecoverLogicalData`,
parameterised by the result `werr` of the external
`destination.WritePieces` call: on error, fail the chunk; on success,
finalize recovery.  Either way the deferred `managedCleanUp` runs last.
The second component is the function's returned error. -/
def threadedRecoverLogicalData (werr : Option ChunkErr) (s : UDC) :
    CleanUpResult × Option ChunkErr :=
  match werr with
  | some e => (managedCleanUp (fail e s), some e)
  | none => (managedCleanUp (managedFinalizeRecovery s), none)

/-- Modelled from the spec: `segmentsForRecovery` is not part of the
provided source (only its caller `bytesToRecover` is).  Section 4.5 of the
spec defines the first segment as `⌊offset / recoveredSegmentSize⌋` and
`numSegments = ⌈(offset + length) / recoveredSegmentSize⌉ −
⌊offset / recoveredSegmentSize⌋`; without partial encoding the whole chunk
is recovered and the caller never uses this value. -/
def segmentsForRecovery (chunkFetchOffset chunkFetchLength : Nat)
    (rs : ErasureCoder) : Nat × Nat :=
  match rs.supportsPartialEncoding with
  | none => (0, 0)
  | some segmentSize =>
    let recoveredSegmentSize := rs.minPieces * segmentSize
    (chunkFetchOffset / recoveredSegmentSize,
      (chunkFetchOffset + chunkFetchLength + recoveredSegmentSize - 1) / recoveredSegmentSize -
        chunkFetchOffset / recoveredSegmentSize)

/-- Embedding of `bytesToRecover`: number of bytes to recover from the
erasure-coded segments. -/
def bytesToRecover (chunkFetchOffset chunkFetchLength chunkSize : Nat)
    (rs : ErasureCoder) : Nat :=
  match rs.supportsPartialEncoding with
  | none => chunkSize
  | some segmentSize =>
    let recoveredSegmentSize := rs.minPieces * segmentSize
    (segmentsForRecovery chunkFetchOffset chunkFetchLength rs).2 * recoveredSegmentSize

/-- Embedding of `recoveredDataOffset`: the fetch offset translated into an
offset within the recovered data. -/
def recoveredDataOffset (chunkFetchOffset : Nat) (rs : ErasureCoder) : Nat :=
  match rs.supportsPartialEncoding with
  | none => chunkFetchOffset
  | some segmentSize => chunkFetchOffset % (rs.minPieces * segmentSize)

/-- Mathematical ceiling division on naturals, used to state the spec's
`⌈a / b⌉` formulas. -/
def natCeilDiv (a b : Nat) : Nat :=
  a / b + (if a % b = 0 then 0 else 1)

/-- The six UDC events of the spec (section 4.3).  `pieceRegistered`,
`pieceCompleted` and `pieceFailed` carry the piece index (and the fetched
bytes); `recoveryFinished` carries the result of the `WritePieces` call. -/
inductive Event where
  | memoryGranted (n : Nat)
  | pieceRegistered (p : Nat)
  | pieceCompleted (p : Nat) (data : Bytes)
  | pieceFailed (p : Nat)
  | workerRemoved
  | recoveryFinished (werr : Option ChunkErr)
deriving DecidableEq

/-- Modelled from the spec: the worker job loop (section 4.2) that drives
the UDC events is not part of the provided source.  Each event applies the
corresponding source operations under the guard the worker checks before
acting (chunk viable, piece in range, registration exclusive); an event
whose guard fails leaves the state unchanged.  `workerRemoved` and the
piece events end in `managedCleanUp` exactly as the source operations do. -/
def step (e : Event) (s : UDC) : UDC :=
  match e with
  | .memoryGranted n => { s with memoryAllocated := s.memoryAllocated + n }
  | .pieceRegistered p =>
    if s.failed = false ∧ s.piecesCompleted < (s.erasureCode.minPieces : Int) ∧
        s.completedPieces.getD p true = false ∧ s.pieceUsage.getD p true = false then
      { s with pieceUsage := s.pieceUsage.set p true,
               piecesRegistered := s.piecesRegistered + 1 }
    else s
  | .pieceCompleted p data =>
    if s.pieceUsage.getD p false = true ∧ s.completedPieces.getD p true = false then
      (managedCleanUp (markPieceCompleted
        { s with piecesRegistered := s.piecesRegistered - 1,
                 physicalChunkData := s.physicalChunkData.set p (some data) } p)).udc
    else s
  | .pieceFailed p =>
    if s.pieceUsage.getD p false = true ∧ s.completedPieces.getD p true = false then
      (managedCleanUp
        { s with piecesRegistered := s.piecesRegistered - 1,
                 pieceUsage := s.pieceUsage.set p false }).udc
    else s
  | .workerRemoved => (managedRemoveWorker s).udc
  | .recoveryFinished werr =>
    if s.piecesCompleted ≥ (s.erasureCode.minPieces : Int) ∧
        s.recoveryComplete = false ∧ s.failed = false then
      (threadedRecoverLogicalData werr s).1.udc
    else s

/-- Run a sequence of UDC events from a state. -/
def run (s : UDC) (tr : List Event) : UDC :=
  tr.foldl (fun s e => step e s) s

/-- Modelled from the spec: the initial UDC built by the download setup
code (not part of the provided source).  Bitsets start empty, counters at
zero, `workersRemaining` at the number of workers holding pieces, and no
memory allocated yet. -/
def initialUDC (ec : ErasureCoder) (pieceSize : Nat) (overdrive : Int)
    (workers : Nat) (chunksRemaining : Int) : UDC :=
  { destination := some 0
    erasureCode := ec
    staticPieceSize := pieceSize
    staticOverdrive := overdrive
    completedPieces := List.replicate ec.numPieces false
    failed := false
    physicalChunkData := List.replicate ec.numPieces none
    pieceUsage := List.replicate ec.numPieces false
    piecesCompleted := 0
    piecesRegistered := 0
    recoveryComplete := false
    workersRemaining := (workers : Int)
    workersStandby := []
    memoryAllocated := 0
    download := { chunksRemaining := chunksRemaining, err := none, completeSignaled := false } }

/-- The pieces-counting invariant of the spec:
`piecesCompleted == popcount(completedPieces)`. -/
def piecesInvariant (s : UDC) : Prop :=
  s.piecesCompleted = (s.completedPieces.count true : Int)

instance (s : UDC) : Decidable (piecesInvariant s) := by
  unfold piecesInvariant; infer_instance

/-- A concrete chunk state in the middle phase of the source's
`returnMemory`: enough pieces completed (3 of MinPieces 3) but recovery not
yet complete, with registered pieces and remaining workers diverging. -/
def c3State : UDC :=
  { destination := some 0
    erasureCode := { minPieces := 3, numPieces := 5, supportsPartialEncoding := none }
    staticPieceSize := 10
    staticOverdrive := 0
    completedPieces := [true, true, true, false, false]
    failed := false
    physicalChunkData := [some [1], some [2], some [3], none, none]
    pieceUsage := [true, true, true, false, false]
    piecesCompleted := 3
    piecesRegistered := 0
    recoveryComplete := false
    workersRemaining := 5
    workersStandby := []
    memoryAllocated := 100
    download := { chunksRemaining := 1, err := none, completeSignaled := false } }

/-- A concrete chunk state about to finalize recovery successfully: three
pieces recovered, one overdrive piece still registered, memory still
allocated, last chunk of its download. -/
def c5State : UDC :=
  { destination := some 0
    erasureCode := { minPieces := 3, numPieces := 5, supportsPartialEncoding := none }
    staticPieceSize := 10
    staticOverdrive := 1
    completedPieces := [true, true, true, false, false]
    failed := false
    physicalChunkData := [some [1], some [2], some [3], none, none]
    pieceUsage := [true, true, true, true, false]
    piecesCompleted := 3
    piecesRegistered := 1
    recoveryComplete := false
    workersRemaining := 2
    workersStandby := []
    memoryAllocated := 50
    download := { chunksRemaining := 1, err := none, completeSignaled := false } }

/-- A concrete chunk state with two standby workers and fewer pieces
registered than `MinPieces + overdrive − piecesCompleted`. -/
def c8State : UDC :=
  { destination := some 0
    erasureCode := { minPieces := 3, numPieces := 5, supportsPartialEncoding := none }
    staticPieceSize := 10
    staticOverdrive := 0
    completedPieces := [false, false, false, false, false]
    failed := false
    physicalChunkData := [none, none, none, none, none]
    pieceUsage := [false, false, false, false, false]
    piecesCompleted := 0
    piecesRegistered := 0
    recoveryComplete := false
    workersRemaining := 5
    workersStandby := [1, 2]
    memoryAllocated := 0
    download := { chunksRemaining := 1, err := none, completeSignaled := false } }

/-! ## Helper lemmas -/

theorem returnMemory_eq (s : UDC) :
    returnMemory s = ({ s with memoryAllocated := min s.memoryAllocated (usedMemory s) },
      s.memoryAllocated - usedMemory s) := by
  obtain ⟨d, ec, ps, od, cp, f, pcd, pu, pc, pr, rc, wr, ws, ma, dl⟩ := s
  unfold returnMemory usedMemory
  by_cases h1 : rc <;>
    by_cases h2 : pc ≥ (ec.minPieces : Int) <;>
      simp only [h1, h2, if_true, if_false, ite_true, ite_false, ge_iff_le, if_pos, if_neg,
        not_false_iff, Bool.false_eq_true] <;>
      split <;>
      rename_i hgt <;>
      refine Prod.ext ?_ ?_ <;>
      simp_all [UDC.mk.injEq] <;>
      omega

theorem usedMemory_fail (e : ChunkErr) (s : UDC) :
    usedMemory (fail e s) = u64mul (u64 s.piecesRegistered) s.staticPieceSize := by
  simp [usedMemory, fail]

theorem managedCleanUp_cases (s : UDC) :
    managedCleanUp s =
      if s.workersRemaining + s.piecesCompleted < (s.erasureCode.minPieces : Int) ∧ s.failed = false then
        { udc := clampMemory (fail ChunkErr.notEnoughWorkers s),
          returned := s.memoryAllocated - usedMemory (fail ChunkErr.notEnoughWorkers s),
          spawned := [], dispatched := false }
      else if s.failed = true then
        { udc := clampMemory s, returned := s.memoryAllocated - usedMemory s,
          spawned := [], dispatched := false }
      else if s.piecesCompleted < (s.erasureCode.minPieces : Int) ∧
          s.piecesRegistered < (s.erasureCode.minPieces : Int) + s.staticOverdrive - s.piecesCompleted then
        { udc := { clampMemory s with workersStandby := [] },
          returned := s.memoryAllocated - usedMemory s,
          spawned := s.workersStandby, dispatched := true }
      else
        { udc := clampMemory s, returned := s.memoryAllocated - usedMemory s,
          spawned := [], dispatched := false } := by
  unfold managedCleanUp clampMemory
  by_cases h1 : s.workersRemaining + s.piecesCompleted < (s.erasureCode.minPieces : Int) ∧ s.failed = false
  · simp only [h1, if_true, returnMemory_eq]
    have hf : (fail ChunkErr.notEnoughWorkers s).failed = true := by simp [fail]
    have hm : (fail ChunkErr.notEnoughWorkers s).memoryAllocated = s.memoryAllocated := by simp [fail]
    simp [hf, hm]
  · simp only [h1, if_false, returnMemory_eq]
    by_cases h2 : s.failed = true
    · simp [h2]
    · have h2f : s.failed = false := by revert h2; cases s.failed <;> simp
      simp only [h2f, Bool.false_eq_true, if_false]
      by_cases h3 : s.piecesCompleted < (s.erasureCode.minPieces : Int) ∧
          s.piecesRegistered < (s.erasureCode.minPieces : Int) + s.staticOverdrive - s.piecesCompleted
      · simp only [if_pos h3]
        simp [not_le]
        constructor
        · omega
        · have := h3.2; omega
      · simp only [if_neg h3]
        split
        · rename_i hcontra
          exfalso
          simp [not_le] at hcontra
          exact h3 ⟨by omega, hcontra.2⟩
        · rfl

theorem managedCleanUp_preserves (s : UDC) :
    (managedCleanUp s).udc.workersRemaining = s.workersRemaining ∧
    (managedCleanUp s).udc.piecesCompleted = s.piecesCompleted ∧
    (managedCleanUp s).udc.completedPieces = s.completedPieces ∧
    (managedCleanUp s).udc.piecesRegistered = s.piecesRegistered ∧
    (managedCleanUp s).udc.pieceUsage = s.pieceUsage ∧
    (managedCleanUp s).udc.staticPieceSize = s.staticPieceSize ∧
    (managedCleanUp s).udc.staticOverdrive = s.staticOverdrive ∧
    (managedCleanUp s).udc.erasureCode = s.erasureCode ∧
    (managedCleanUp s).udc.download.chunksRemaining = s.download.chunksRemaining ∧
    (managedCleanUp s).udc.download.completeSignaled = s.download.completeSignaled := by
  rw [managedCleanUp_cases]
  split_ifs
  all_goals simp [clampMemory, fail, managedFail, usedMemory]
  all_goals split <;> simp

theorem managedCleanUp_failed_iff (s : UDC) :
    (managedCleanUp s).udc.failed = true ↔
      (s.failed = true ∨
        s.workersRemaining + s.piecesCompleted < (s.erasureCode.minPieces : Int)) := by
  rw [managedCleanUp_cases]
  split_ifs <;> simp_all [clampMemory, fail]

theorem managedCleanUp_failed_stable (s : UDC)
    (h : ¬(s.workersRemaining + s.piecesCompleted < (s.erasureCode.minPieces : Int) ∧
      s.failed = false)) :
    (managedCleanUp s).udc.failed = s.failed := by
  rw [managedCleanUp_cases]
  split_ifs <;> simp_all [clampMemory, fail]

theorem managedCleanUp_of_failed (s : UDC) (h : s.failed = true) :
    managedCleanUp s =
      { udc := clampMemory s, returned := s.memoryAllocated - usedMemory s,
        spawned := [], dispatched := false } := by
  rw [managedCleanUp_cases]
  split_ifs with h1 <;> simp_all

theorem managedCleanUp_flip (s : UDC)
    (h1 : s.failed = false)
    (h2 : s.workersRemaining + s.piecesCompleted < (s.erasureCode.minPieces : Int)) :
    managedCleanUp s =
      { udc := clampMemory (fail ChunkErr.notEnoughWorkers s),
        returned := s.memoryAllocated - usedMemory (fail ChunkErr.notEnoughWorkers s),
        spawned := [], dispatched := false } := by
  rw [managedCleanUp_cases]
  split_ifs with h0 <;> simp_all

theorem managedCleanUp_recovery_pres (s : UDC)
    (h : s.failed = true → s.recoveryComplete = true) :
    (managedCleanUp s).udc.failed = true → (managedCleanUp s).udc.recoveryComplete = true := by
  rw [managedCleanUp_cases]
  split_ifs with h1 h2 h3 <;> simp_all [clampMemory, fail]

theorem cleanup_udc_workersRemaining (s : UDC) :
    (managedCleanUp s).udc.workersRemaining = s.workersRemaining :=
  (managedCleanUp_preserves s).1

theorem cleanup_udc_piecesCompleted (s : UDC) :
    (managedCleanUp s).udc.piecesCompleted = s.piecesCompleted :=
  (managedCleanUp_preserves s).2.1

theorem cleanup_udc_completedPieces (s : UDC) :
    (managedCleanUp s).udc.completedPieces = s.completedPieces :=
  (managedCleanUp_preserves s).2.2.1

theorem cleanup_udc_piecesRegistered (s : UDC) :
    (managedCleanUp s).udc.piecesRegistered = s.piecesRegistered :=
  (managedCleanUp_preserves s).2.2.2.1

theorem cleanup_udc_staticPieceSize (s : UDC) :
    (managedCleanUp s).udc.staticPieceSize = s.staticPieceSize :=
  (managedCleanUp_preserves s).2.2.2.2.2.1

theorem cleanup_udc_chunksRemaining (s : UDC) :
    (managedCleanUp s).udc.download.chunksRemaining = s.download.chunksRemaining :=
  (managedCleanUp_preserves s).2.2.2.2.2.2.2.2.1

theorem cleanup_udc_completeSignaled (s : UDC) :
    (managedCleanUp s).udc.download.completeSignaled = s.download.completeSignaled :=
  (managedCleanUp_preserves s).2.2.2.2.2.2.2.2.2

theorem count_true_set (l : List Bool) (p : Nat) (h : l.getD p true = false) :
    (l.set p true).count true = l.count true + 1 := by
  induction l generalizing p with
  | nil => simp [List.getD] at h
  | cons b t ih =>
    cases p with
    | zero =>
      simp only [List.getD_cons_zero] at h
      subst h
      simp [List.set, List.count_cons]
    | succ n =>
      simp only [List.getD_cons_succ] at h
      simp only [List.set, List.count_cons, ih n h]
      omega

theorem step_workersRemaining (e : Event) (s : UDC) :
    (step e s).workersRemaining =
      s.workersRemaining - (if e = Event.workerRemoved then 1 else 0) := by
  cases e with
  | memoryGranted n => simp [step]
  | pieceRegistered p => simp only [step]; split <;> simp
  | pieceCompleted p data =>
    simp only [step]; split <;>
      simp [cleanup_udc_workersRemaining, markPieceCompleted]
  | pieceFailed p =>
    simp only [step]; split <;> simp [cleanup_udc_workersRemaining]
  | workerRemoved =>
    simp [step, managedRemoveWorker, cleanup_udc_workersRemaining]
  | recoveryFinished werr =>
    simp only [step]; split
    · cases werr <;>
        simp [threadedRecoverLogicalData, cleanup_udc_workersRemaining, fail,
          managedFinalizeRecovery]
    · simp

theorem step_failed_mono (e : Event) (s : UDC) (h : s.failed = true) :
    (step e s).failed = true := by
  cases e with
  | memoryGranted n => simpa [step] using h
  | pieceRegistered p => simp only [step]; split <;> simp_all
  | pieceCompleted p data =>
    simp only [step]; split
    · rw [managedCleanUp_failed_iff]; left; simpa [markPieceCompleted]
    · exact h
  | pieceFailed p =>
    simp only [step]; split
    · rw [managedCleanUp_failed_iff]; left; simpa
    · exact h
  | workerRemoved =>
    simp only [step, managedRemoveWorker]
    rw [managedCleanUp_failed_iff]; left; simpa
  | recoveryFinished werr =>
    simp only [step]; split <;> simp_all

theorem step_piecesInvariant (e : Event) (s : UDC) (h : piecesInvariant s) :
    piecesInvariant (step e s) := by
  unfold piecesInvariant at h ⊢
  cases e with
  | memoryGranted n => simpa [step] using h
  | pieceRegistered p => simp only [step]; split <;> simp_all
  | pieceCompleted p data =>
    simp only [step]; split
    · rename_i hg
      rw [cleanup_udc_piecesCompleted, cleanup_udc_completedPieces]
      simp only [markPieceCompleted]
      rw [count_true_set _ _ (by simpa using hg.2)]
      push_cast
      omega
    · exact h
  | pieceFailed p =>
    simp only [step]; split
    · rw [cleanup_udc_piecesCompleted, cleanup_udc_completedPieces]; exact h
    · exact h
  | workerRemoved =>
    simp only [step, managedRemoveWorker]
    rw [cleanup_udc_piecesCompleted, cleanup_udc_completedPieces]
    exact h
  | recoveryFinished werr =>
    simp only [step]; split
    · cases werr <;>
        · simp only [threadedRecoverLogicalData]
          rw [cleanup_udc_piecesCompleted, cleanup_udc_completedPieces]
          simp only [fail, managedFinalizeRecovery]
          exact h
    · exact h

theorem run_nil (s : UDC) : run s [] = s := rfl

theorem run_cons (s : UDC) (e : Event) (tr : List Event) :
    run s (e :: tr) = run (step e s) tr := rfl

theorem run_piecesInvariant (tr : List Event) (s : UDC) (h : piecesInvariant s) :
    piecesInvariant (run s tr) := by
  induction tr generalizing s with
  | nil => exact h
  | cons e tr ih => exact ih (step e s) (step_piecesInvariant e s h)

theorem run_failed_mono (tr : List Event) (s : UDC) (h : s.failed = true) :
    (run s tr).failed = true := by
  induction tr generalizing s with
  | nil => exact h
  | cons e tr ih => exact ih (step e s) (step_failed_mono e s h)

theorem run_workersRemaining (tr : List Event) (s : UDC) :
    (run s tr).workersRemaining =
      s.workersRemaining - (tr.count Event.workerRemoved : Int) := by
  induction tr generalizing s with
  | nil => simp [run_nil]
  | cons e tr ih =>
    rw [run_cons, ih, step_workersRemaining, List.count_cons]
    by_cases he : e = Event.workerRemoved
    · simp [he]
      omega
    · simp [he]

theorem natCeilDiv_eq (a b : Nat) (hb : 0 < b) :
    (a + b - 1) / b = natCeilDiv a b := by
  unfold natCeilDiv
  have hmod : a % b < b := Nat.mod_lt a hb
  have hdam : b * (a / b) + a % b = a := Nat.div_add_mod a b
  by_cases hr : a % b = 0
  · have hstep : a + b - 1 = b * (a / b) + (b - 1) := by omega
    rw [hstep, Nat.mul_add_div hb]
    rw [Nat.div_eq_of_lt (show b - 1 < b by omega)]
    simp [hr]
  · have hstep : a + b - 1 = b * (a / b + 1) + (a % b - 1) := by
      have hm : b * (a / b + 1) = b * (a / b) + b := by ring
      omega
    rw [hstep, Nat.mul_add_div hb]
    rw [Nat.div_eq_of_lt (show a % b - 1 < b by omega)]
    simp [hr]

/-! ## Claim theorems -/

/-- C1: a call to `managedCleanUp` marks the chunk failed (carrying
`errNotEnoughWorkers` to the parent download) if and only if, at entry,
`workersRemaining + piecesCompleted < MinPieces` and the chunk is not
already failed; in all other cases the `failed` flag is left unchanged. -/
theorem c1_managedCleanUp_marks_failed (s : UDC) :
    ((managedCleanUp s).udc.failed = true ∧ s.failed = false ↔
      s.workersRemaining + s.piecesCompleted < (s.erasureCode.minPieces : Int) ∧
        s.failed = false) ∧
    (¬(s.workersRemaining + s.piecesCompleted < (s.erasureCode.minPieces : Int) ∧
        s.failed = false) →
      (managedCleanUp s).udc.failed = s.failed) ∧
    (s.workersRemaining + s.piecesCompleted < (s.erasureCode.minPieces : Int) →
      s.failed = false → s.download.err = none →
      (managedCleanUp s).udc.download.err = some ChunkErr.notEnoughWorkers) := by
  refine ⟨⟨?_, ?_⟩, managedCleanUp_failed_stable s, ?_⟩
  · rintro ⟨hf, hnf⟩
    rw [managedCleanUp_failed_iff] at hf
    rcases hf with hf | hf
    · rw [hf] at hnf; cases hnf
    · exact ⟨hf, hnf⟩
  · rintro ⟨hlt, hnf⟩
    exact ⟨(managedCleanUp_failed_iff s).mpr (Or.inr hlt), hnf⟩
  · intro hlt hnf herr
    rw [managedCleanUp_flip s hnf hlt]
    simp [clampMemory, fail, managedFail, herr]

/-- Witness for C1 at a chunk with one worker remaining, no pieces
completed and MinPieces three: `managedCleanUp` fails the chunk and
records `errNotEnoughWorkers` on the parent download. -/
theorem c1_witness :
    (managedCleanUp (initialUDC ⟨3, 5, none⟩ 10 0 1 1)).udc.failed = true ∧
    (managedCleanUp (initialUDC ⟨3, 5, none⟩ 10 0 1 1)).udc.download.err =
      some ChunkErr.notEnoughWorkers := by
  have h := c1_managedCleanUp_marks_failed (initialUDC ⟨3, 5, none⟩ 10 0 1 1)
  exact ⟨(h.1.mpr (by decide)).1, h.2.2 (by decide) (by decide) (by decide)⟩

/-- C2: with partial encoding `(segmentSize, true)`, `bytesToRecover` is
`numSegments × (MinPieces × segmentSize)` for
`numSegments = ⌈(fetchOffset + fetchLength) / recoveredSegmentSize⌉ −
⌊fetchOffset / recoveredSegmentSize⌋`, and `recoveredDataOffset` is
`fetchOffset mod recoveredSegmentSize`; without partial encoding they are
`chunkSize` and `fetchOffset`.  At segmentSize 8, MinPieces 3, fetch range
ten to thirty, chunkSize 120 this gives 48 and 10. -/
theorem c2_bytesToRecover_formulas (chunkFetchOffset chunkFetchLength chunkSize : Nat) :
    (∀ (rs : ErasureCoder) (segmentSize : Nat),
      rs.supportsPartialEncoding = some segmentSize →
      0 < rs.minPieces * segmentSize →
      bytesToRecover chunkFetchOffset chunkFetchLength chunkSize rs =
        (natCeilDiv (chunkFetchOffset + chunkFetchLength) (rs.minPieces * segmentSize) -
          chunkFetchOffset / (rs.minPieces * segmentSize)) * (rs.minPieces * segmentSize) ∧
      recoveredDataOffset chunkFetchOffset rs =
        chunkFetchOffset % (rs.minPieces * segmentSize)) ∧
    (∀ rs : ErasureCoder, rs.supportsPartialEncoding = none →
      bytesToRecover chunkFetchOffset chunkFetchLength chunkSize rs = chunkSize ∧
      recoveredDataOffset chunkFetchOffset rs = chunkFetchOffset) ∧
    (bytesToRecover 10 20 120 ⟨3, 5, some 8⟩ = 48 ∧
      recoveredDataOffset 10 ⟨3, 5, some 8⟩ = 10) := by
  refine ⟨?_, ?_, by decide⟩
  · intro rs segmentSize hp hpos
    constructor
    · unfold bytesToRecover segmentsForRecovery
      rw [hp]
      simp only
      rw [natCeilDiv_eq _ _ hpos]
    · unfold recoveredDataOffset
      rw [hp]
  · intro rs hp
    constructor
    · unfold bytesToRecover; rw [hp]
    · unfold recoveredDataOffset; rw [hp]

/-- Witness for C2 at the spec's literal scenario (segmentSize 8,
MinPieces 3, fetch range ten to thirty). -/
theorem c2_witness :
    bytesToRecover 10 20 120 ⟨3, 5, some 8⟩ =
      (natCeilDiv (10 + 20) (3 * 8) - 10 / (3 * 8)) * (3 * 8) ∧
    recoveredDataOffset 10 ⟨3, 5, some 8⟩ = 10 % (3 * 8) :=
  (c2_bytesToRecover_formulas 10 20 120).1 ⟨3, 5, some 8⟩ 8 rfl (by decide)

/-- C3 counterexample: in the middle phase (pieces completed has reached
MinPieces but recovery is not yet complete) the source's `returnMemory`
uses `(piecesCompleted + piecesRegistered) × pieceSize`, not the spec's
before-recovery formula `(workersRemaining + piecesCompleted) × pieceSize`:
at `c3State` the code returns 70 bytes while the claimed formula demands
`max(0, 100 − 80) = 20`. -/
theorem c3_counterexample :
    c3State.recoveryComplete = false ∧
    (returnMemory c3State).2 = 70 ∧
    c3State.memoryAllocated - claimedMaxMemory c3State = 20 := by
  decide

/-- C3 (amended): `returnMemory` returns exactly
`max(0, memoryAllocated − maxMemory)` and leaves
`memoryAllocated = min(memoryAllocated, maxMemory)`, never increasing it —
where `maxMemory` is the three-phase formula of the code
(`usedMemory`): `(workersRemaining + piecesCompleted) × pieceSize` before
MinPieces pieces have completed, `(piecesCompleted + piecesRegistered) ×
pieceSize` once `piecesCompleted ≥ MinPieces` but recovery is not complete,
and `piecesRegistered × pieceSize` after recovery is complete. -/
theorem c3_returnMemory_amended (s : UDC) :
    (returnMemory s).2 = s.memoryAllocated - usedMemory s ∧
    (returnMemory s).1.memoryAllocated = min s.memoryAllocated (usedMemory s) ∧
    (returnMemory s).1.memoryAllocated ≤ s.memoryAllocated := by
  rw [returnMemory_eq]
  exact ⟨rfl, rfl, Nat.min_le_left _ _⟩

/-- C4: marking an uncompleted piece completed preserves
`piecesCompleted == popcount(completedPieces)`, and the invariant holds
after each event of every UDC event sequence started in a state satisfying
it. -/
theorem c4_piecesCompleted_popcount :
    (∀ (s : UDC) (p : Nat), s.completedPieces.getD p true = false →
      piecesInvariant s → piecesInvariant (markPieceCompleted s p)) ∧
    (∀ (s : UDC) (tr : List Event), piecesInvariant s → piecesInvariant (run s tr)) := by
  constructor
  · intro s p hp h
    unfold piecesInvariant at h ⊢
    simp only [markPieceCompleted]
    rw [count_true_set _ _ hp]
    push_cast
    omega
  · intro s tr h
    exact run_piecesInvariant tr s h

/-- Witness for C4: the invariant holds after marking piece zero of a
fresh chunk, and after a register-then-complete event sequence. -/
theorem c4_witness :
    piecesInvariant (markPieceCompleted (initialUDC ⟨3, 5, none⟩ 10 0 3 1) 0) ∧
    piecesInvariant (run (initialUDC ⟨3, 5, none⟩ 10 0 3 1)
      [Event.pieceRegistered 0, Event.pieceCompleted 0 [7]]) :=
  ⟨c4_piecesCompleted_popcount.1 _ 0 (by decide) (by decide),
    c4_piecesCompleted_popcount.2 _ _ (by decide)⟩

/-- C5: on a successful `WritePieces` (no error), the recovery-finished
step nils `physicalChunkData`, sets `recoveryComplete`, decrements the
parent download's `chunksRemaining` by exactly one, marks the download
complete if and only if `chunksRemaining` reaches zero, and returns the
excess memory (everything above `piecesRegistered × pieceSize`) to the
memory manager. -/
theorem c5_finalize_success (s : UDC)
    (hnf : s.failed = false)
    (hpc : (s.erasureCode.minPieces : Int) ≤ s.piecesCompleted)
    (hwr : 0 ≤ s.workersRemaining)
    (hcs : s.download.completeSignaled = false) :
    (threadedRecoverLogicalData none s).1.udc.physicalChunkData = [] ∧
    (threadedRecoverLogicalData none s).1.udc.recoveryComplete = true ∧
    (threadedRecoverLogicalData none s).1.udc.failed = false ∧
    (threadedRecoverLogicalData none s).1.udc.download.chunksRemaining =
      s.download.chunksRemaining - 1 ∧
    ((threadedRecoverLogicalData none s).1.udc.download.completeSignaled = true ↔
      s.download.chunksRemaining - 1 = 0) ∧
    (threadedRecoverLogicalData none s).1.returned =
      s.memoryAllocated - u64mul (u64 s.piecesRegistered) s.staticPieceSize ∧
    (threadedRecoverLogicalData none s).1.udc.memoryAllocated =
      min s.memoryAllocated (u64mul (u64 s.piecesRegistered) s.staticPieceSize) := by
  simp only [threadedRecoverLogicalData]
  have hff : (managedFinalizeRecovery s).failed = false := by
    simp [managedFinalizeRecovery, hnf]
  have hW : (managedFinalizeRecovery s).workersRemaining = s.workersRemaining := by
    simp [managedFinalizeRecovery]
  have hP : (managedFinalizeRecovery s).piecesCompleted = s.piecesCompleted := by
    simp [managedFinalizeRecovery]
  have hE : (managedFinalizeRecovery s).erasureCode = s.erasureCode := by
    simp [managedFinalizeRecovery]
  have hR : (managedFinalizeRecovery s).piecesRegistered = s.piecesRegistered := by
    simp [managedFinalizeRecovery]
  have hS : (managedFinalizeRecovery s).staticPieceSize = s.staticPieceSize := by
    simp [managedFinalizeRecovery]
  have hM : (managedFinalizeRecovery s).memoryAllocated = s.memoryAllocated := by
    simp [managedFinalizeRecovery]
  have hRC : (managedFinalizeRecovery s).recoveryComplete = true := by
    simp [managedFinalizeRecovery]
  have hPD : (managedFinalizeRecovery s).physicalChunkData = [] := by
    simp [managedFinalizeRecovery]
  have hCR : (managedFinalizeRecovery s).download.chunksRemaining =
      s.download.chunksRemaining - 1 := by
    unfold managedFinalizeRecovery markComplete
    by_cases h0 : s.download.chunksRemaining - 1 = 0 <;> simp [h0]
  have hCS : ((managedFinalizeRecovery s).download.completeSignaled = true ↔
      s.download.chunksRemaining - 1 = 0) := by
    unfold managedFinalizeRecovery markComplete
    by_cases h0 : s.download.chunksRemaining - 1 = 0 <;> simp [h0, hcs]
  have hUM : usedMemory (managedFinalizeRecovery s) =
      u64mul (u64 s.piecesRegistered) s.staticPieceSize := by
    unfold usedMemory
    rw [hRC, hR, hS]
    simp
  rw [managedCleanUp_cases]
  rw [if_neg (by
    rw [hW, hP, hE, hff]
    rintro ⟨hl, _⟩
    omega)]
  rw [if_neg (by rw [hff]; simp)]
  rw [if_neg (by
    rw [hP, hE]
    rintro ⟨hl, _⟩
    omega)]
  refine ⟨?_, ?_, ?_, ?_, ?_, ?_, ?_⟩
  · simp [clampMemory, hPD]
  · simp [clampMemory, hRC]
  · simp [clampMemory, hff]
  · simp [clampMemory, hCR]
  · simpa [clampMemory] using hCS
  · simp [hUM, hM]
  · simp [clampMemory, hUM, hM]

/-- Witness for C5 at a chunk with three recovered pieces, one piece still
registered, fifty bytes allocated and one chunk remaining: the download is
marked complete and forty bytes are returned. -/
theorem c5_witness :
    (threadedRecoverLogicalData none c5State).1.udc.physicalChunkData = [] ∧
    (threadedRecoverLogicalData none c5State).1.udc.download.chunksRemaining = 0 ∧
    ((threadedRecoverLogicalData none c5State).1.udc.download.completeSignaled = true ↔
      (0 : Int) = 0) ∧
    (threadedRecoverLogicalData none c5State).1.returned = 40 := by
  have h := c5_finalize_success c5State (by decide) (by decide) (by decide) (by decide)
  exact ⟨h.1, h.2.2.2.1, h.2.2.2.2.1, h.2.2.2.2.2.1⟩

/-- C6: when `WritePieces` returns an error, `threadedRecoverLogicalData`
fails the chunk with that error, fails the parent download via
`managedFail`, does not invoke `managedFinalizeRecovery` (the download's
`chunksRemaining` and completion signal are untouched), and no subsequent
event sequence can bring the chunk to the Done state
(`recoveryComplete ∧ ¬failed`). -/
theorem c6_write_error_path (s : UDC) (e : ChunkErr) (he : s.download.err = none) :
    (threadedRecoverLogicalData (some e) s).1.udc.failed = true ∧
    (threadedRecoverLogicalData (some e) s).1.udc.download.err = some e ∧
    (threadedRecoverLogicalData (some e) s).1.udc.download.chunksRemaining =
      s.download.chunksRemaining ∧
    (threadedRecoverLogicalData (some e) s).1.udc.download.completeSignaled =
      s.download.completeSignaled ∧
    (∀ tr : List Event,
      (run (threadedRecoverLogicalData (some e) s).1.udc tr).failed = true ∧
      ¬((run (threadedRecoverLogicalData (some e) s).1.udc tr).recoveryComplete = true ∧
        (run (threadedRecoverLogicalData (some e) s).1.udc tr).failed = false)) := by
  simp only [threadedRecoverLogicalData]
  have hf : (fail e s).failed = true := by simp [fail]
  rw [managedCleanUp_of_failed _ hf]
  refine ⟨?_, ?_, ?_, ?_, ?_⟩
  · simp [clampMemory, hf]
  · simp [clampMemory, fail, managedFail, he]
  · simp [clampMemory, fail, managedFail, he]
  · simp [clampMemory, fail, managedFail, he]
  · intro tr
    have hrun : (run (clampMemory (fail e s)) tr).failed = true :=
      run_failed_mono tr _ (by simp [clampMemory, hf])
    refine ⟨hrun, fun hcon => ?_⟩
    rw [hrun] at hcon
    cases hcon.2

/-- Witness for C6 at a fresh chunk whose sink write fails: the chunk is
failed, the download carries the write error, and `chunksRemaining` is
untouched. -/
theorem c6_witness :
    (threadedRecoverLogicalData (some ChunkErr.destinationWrite)
      (initialUDC ⟨3, 5, none⟩ 10 0 3 1)).1.udc.failed = true ∧
    (threadedRecoverLogicalData (some ChunkErr.destinationWrite)
      (initialUDC ⟨3, 5, none⟩ 10 0 3 1)).1.udc.download.err =
      some ChunkErr.destinationWrite ∧
    (threadedRecoverLogicalData (some ChunkErr.destinationWrite)
      (initialUDC ⟨3, 5, none⟩ 10 0 3 1)).1.udc.download.chunksRemaining = 1 := by
  have h := c6_write_error_path (initialUDC ⟨3, 5, none⟩ 10 0 3 1)
    ChunkErr.destinationWrite (by decide)
  exact ⟨h.1, h.2.1, h.2.2.1⟩

/-- C7 counterexample: the event sequence grant forty bytes, register
piece zero, remove a worker (of three) ends with the terminal
`workerRemoved` event failing the chunk, yet `memoryAllocated` is ten (one
registered piece times piece size ten), not zero, immediately after that
event. -/
theorem c7_counterexample :
    (run (initialUDC ⟨3, 5, none⟩ 10 0 3 1)
      [Event.memoryGranted 40, Event.pieceRegistered 0]).failed = false ∧
    (run (initialUDC ⟨3, 5, none⟩ 10 0 3 1)
      [Event.memoryGranted 40, Event.pieceRegistered 0, Event.workerRemoved]).failed = true ∧
    (run (initialUDC ⟨3, 5, none⟩ 10 0 3 1)
      [Event.memoryGranted 40, Event.pieceRegistered 0,
        Event.workerRemoved]).memoryAllocated = 10 := by
  decide

/-- C7 (amended): immediately after the terminal event whose CleanUp marks
the chunk failed, `memoryAllocated` equals
`min(memoryAllocated, piecesRegistered × pieceSize)`; in particular it is
zero whenever no piece fetches are still registered at that moment. -/
theorem c7_memory_after_terminal_failure (s : UDC) (e : Event)
    (hpre : s.failed = false) (hpost : (step e s).failed = true) :
    (step e s).memoryAllocated =
      min s.memoryAllocated
        (u64mul (u64 ((step e s).piecesRegistered)) ((step e s).staticPieceSize)) ∧
    ((step e s).piecesRegistered = 0 → (step e s).memoryAllocated = 0) := by
  have main : (step e s).memoryAllocated =
      min s.memoryAllocated
        (u64mul (u64 ((step e s).piecesRegistered)) ((step e s).staticPieceSize)) := by
    cases e with
    | memoryGranted n => simp [step, hpre] at hpost
    | pieceRegistered p =>
      by_cases hg : s.failed = false ∧ s.piecesCompleted < (s.erasureCode.minPieces : Int) ∧
          s.completedPieces.getD p true = false ∧ s.pieceUsage.getD p true = false
      · simp only [step, if_pos hg] at hpost
        simp [hpre] at hpost
      · simp only [step, if_neg hg] at hpost
        simp [hpre] at hpost
    | pieceCompleted p data =>
      by_cases hg : s.pieceUsage.getD p false = true ∧ s.completedPieces.getD p true = false
      · simp only [step, if_pos hg] at hpost ⊢
        have h2f : (markPieceCompleted
            { s with piecesRegistered := s.piecesRegistered - 1,
                     physicalChunkData := s.physicalChunkData.set p (some data) } p).failed =
            false := by simp [markPieceCompleted, hpre]
        rw [managedCleanUp_failed_iff] at hpost
        rcases hpost with hcon | hcond
        · rw [h2f] at hcon; cases hcon
        · rw [managedCleanUp_flip _ h2f hcond]
          simp only [clampMemory, usedMemory_fail]
          simp [fail, markPieceCompleted]
      · simp only [step, if_neg hg] at hpost
        simp [hpre] at hpost
    | pieceFailed p =>
      by_cases hg : s.pieceUsage.getD p false = true ∧ s.completedPieces.getD p true = false
      · simp only [step, if_pos hg] at hpost ⊢
        have h2f : ({ s with piecesRegistered := s.piecesRegistered - 1,
                             pieceUsage := s.pieceUsage.set p false } : UDC).failed = false := by
          simpa using hpre
        rw [managedCleanUp_failed_iff] at hpost
        rcases hpost with hcon | hcond
        · rw [h2f] at hcon; cases hcon
        · rw [managedCleanUp_flip _ h2f hcond]
          simp only [clampMemory, usedMemory_fail]
          simp [fail]
      · simp only [step, if_neg hg] at hpost
        simp [hpre] at hpost
    | workerRemoved =>
      simp only [step, managedRemoveWorker] at hpost ⊢
      have h2f : ({ s with workersRemaining := s.workersRemaining - 1 } : UDC).failed =
          false := by simpa using hpre
      rw [managedCleanUp_failed_iff] at hpost
      rcases hpost with hcon | hcond
      · rw [h2f] at hcon; cases hcon
      · rw [managedCleanUp_flip _ h2f hcond]
        simp only [clampMemory, usedMemory_fail]
        simp [fail]
    | recoveryFinished werr =>
      by_cases hg : s.piecesCompleted ≥ (s.erasureCode.minPieces : Int) ∧
          s.recoveryComplete = false ∧ s.failed = false
      · simp only [step, if_pos hg] at hpost ⊢
        cases werr with
        | some e' =>
          simp only [threadedRecoverLogicalData] at hpost ⊢
          have hf : (fail e' s).failed = true := by simp [fail]
          rw [managedCleanUp_of_failed _ hf]
          simp only [clampMemory, usedMemory_fail]
          simp [fail]
        | none =>
          simp only [threadedRecoverLogicalData] at hpost ⊢
          have h2f : (managedFinalizeRecovery s).failed = false := by
            simp [managedFinalizeRecovery, hpre]
          rw [managedCleanUp_failed_iff] at hpost
          rcases hpost with hcon | hcond
          · rw [h2f] at hcon; cases hcon
          · rw [managedCleanUp_flip _ h2f hcond]
            simp only [clampMemory, usedMemory_fail]
            simp [fail, managedFinalizeRecovery]
      · simp only [step, if_neg hg] at hpost
        simp [hpre] at hpost
  refine ⟨main, fun hz => ?_⟩
  rw [main, hz]
  simp [u64, u64mul, U64]

/-- Witness for C7 (amended): after the terminal worker removal of the
counterexample trace the allocation is clamped to the one registered
piece. -/
theorem c7_amended_witness :
    (step Event.workerRemoved (run (initialUDC ⟨3, 5, none⟩ 10 0 3 1)
      [Event.memoryGranted 40, Event.pieceRegistered 0])).memoryAllocated =
      min 40 (u64mul (u64 1) 10) :=
  (c7_memory_after_terminal_failure
    (run (initialUDC ⟨3, 5, none⟩ 10 0 3 1)
      [Event.memoryGranted 40, Event.pieceRegistered 0])
    Event.workerRemoved (by decide) (by decide)).1

/-- C8: `managedCleanUp` takes the standby-dispatch branch if and only if
the chunk is not failed (after the starvation check of the same call),
`piecesCompleted < MinPieces`, and
`piecesRegistered < MinPieces + overdrive − piecesCompleted`; when it
dispatches, it spawns a fresh task for exactly the standby workers and
leaves the standby list empty, and otherwise it spawns nothing and leaves
the standby list unchanged. -/
theorem c8_standby_dispatch (s : UDC) :
    ((managedCleanUp s).dispatched = true ↔
      (managedCleanUp s).udc.failed = false ∧
        s.piecesCompleted < (s.erasureCode.minPieces : Int) ∧
        s.piecesRegistered <
          (s.erasureCode.minPieces : Int) + s.staticOverdrive - s.piecesCompleted) ∧
    ((managedCleanUp s).dispatched = true →
      (managedCleanUp s).spawned = s.workersStandby ∧
      (managedCleanUp s).udc.workersStandby = []) ∧
    ((managedCleanUp s).dispatched = false →
      (managedCleanUp s).spawned = [] ∧
      (managedCleanUp s).udc.workersStandby = s.workersStandby) := by
  rw [managedCleanUp_cases]
  split_ifs with h1 h2 h3
  all_goals simp_all [clampMemory, fail]

/-- Witness for C8 at a chunk with two standby workers, nothing completed
and nothing registered: both standby workers are dispatched and the
standby list is emptied. -/
theorem c8_witness :
    (managedCleanUp c8State).dispatched = true ∧
    (managedCleanUp c8State).spawned = [1, 2] ∧
    (managedCleanUp c8State).udc.workersStandby = [] := by
  have h := c8_standby_dispatch c8State
  have hd : (managedCleanUp c8State).dispatched = true :=
    h.1.mpr ⟨by decide, by decide, by decide⟩
  exact ⟨hd, ((h.2.1 hd).1).trans (by decide), (h.2.1 hd).2⟩

/-- C9: no UDC event ever increases `workersRemaining`;
`managedRemoveWorker` decrements it by exactly one, changing no other
field, before invoking CleanUp; and along any event sequence from a fresh
chunk in which each of the initial workers is removed at most once,
`workersRemaining` stays non-negative. -/
theorem c9_workersRemaining_monotone :
    (∀ (e : Event) (s : UDC), (step e s).workersRemaining ≤ s.workersRemaining) ∧
    (∀ s : UDC,
      managedRemoveWorker s =
        managedCleanUp { s with workersRemaining := s.workersRemaining - 1 } ∧
      ({ s with workersRemaining := s.workersRemaining - 1 } : UDC).workersRemaining =
        s.workersRemaining - 1 ∧
      ({ s with workersRemaining := s.workersRemaining - 1 } : UDC).destination =
        s.destination ∧
      ({ s with workersRemaining := s.workersRemaining - 1 } : UDC).completedPieces =
        s.completedPieces ∧
      ({ s with workersRemaining := s.workersRemaining - 1 } : UDC).failed = s.failed ∧
      ({ s with workersRemaining := s.workersRemaining - 1 } : UDC).physicalChunkData =
        s.physicalChunkData ∧
      ({ s with workersRemaining := s.workersRemaining - 1 } : UDC).pieceUsage =
        s.pieceUsage ∧
      ({ s with workersRemaining := s.workersRemaining - 1 } : UDC).piecesCompleted =
        s.piecesCompleted ∧
      ({ s with workersRemaining := s.workersRemaining - 1 } : UDC).piecesRegistered =
        s.piecesRegistered ∧
      ({ s with workersRemaining := s.workersRemaining - 1 } : UDC).recoveryComplete =
        s.recoveryComplete ∧
      ({ s with workersRemaining := s.workersRemaining - 1 } : UDC).workersStandby =
        s.workersStandby ∧
      ({ s with workersRemaining := s.workersRemaining - 1 } : UDC).memoryAllocated =
        s.memoryAllocated ∧
      ({ s with workersRemaining := s.workersRemaining - 1 } : UDC).download =
        s.download) ∧
    (∀ (ec : ErasureCoder) (pieceSize : Nat) (overdrive : Int) (workers : Nat)
        (chunksRemaining : Int) (tr : List Event),
      tr.count Event.workerRemoved ≤ workers →
      0 ≤ (run (initialUDC ec pieceSize overdrive workers chunksRemaining)
        tr).workersRemaining) := by
  refine ⟨?_, ?_, ?_⟩
  · intro e s
    rw [step_workersRemaining]
    split <;> omega
  · intro s
    exact ⟨rfl, rfl, rfl, rfl, rfl, rfl, rfl, rfl, rfl, rfl, rfl, rfl, rfl⟩
  · intro ec pieceSize overdrive workers chunksRemaining tr hcount
    rw [run_workersRemaining]
    have : (initialUDC ec pieceSize overdrive workers chunksRemaining).workersRemaining =
        (workers : Int) := rfl
    rw [this]
    omega

/-- Witness for C9: with two workers and a single removal the count stays
non-negative. -/
theorem c9_witness :
    0 ≤ (run (initialUDC ⟨3, 5, none⟩ 10 0 2 1) [Event.workerRemoved]).workersRemaining :=
  c9_workersRemaining_monotone.2.2 ⟨3, 5, none⟩ 10 0 2 1 [Event.workerRemoved] (by decide)

/-- C10: after any `fail(err)` the chunk is failed and recovery-complete,
every `physicalChunkData` entry is nil and the destination is nil; and the
implication `failed ⇒ recoveryComplete` is preserved by every UDC event,
so a failed chunk always satisfies the recovery-complete predicate and
Done must be read as `recoveryComplete ∧ ¬failed`. -/
theorem c10_fail_postconditions :
    (∀ (e : ChunkErr) (s : UDC),
      (fail e s).failed = true ∧
      (fail e s).recoveryComplete = true ∧
      (∀ x ∈ (fail e s).physicalChunkData, x = none) ∧
      (fail e s).destination = none) ∧
    (∀ (ev : Event) (s : UDC), (s.failed = true → s.recoveryComplete = true) →
      ((step ev s).failed = true → (step ev s).recoveryComplete = true)) := by
  constructor
  · intro e s
    refine ⟨rfl, rfl, ?_, rfl⟩
    intro x hx
    simp only [fail, List.mem_map] at hx
    obtain ⟨y, _, hy⟩ := hx
    exact hy.symm
  · intro ev s h
    cases ev with
    | memoryGranted n => exact h
    | pieceRegistered p =>
      simp only [step]
      split <;> exact h
    | pieceCompleted p data =>
      simp only [step]
      split
      · exact managedCleanUp_recovery_pres _ (by simpa [markPieceCompleted] using h)
      · exact h
    | pieceFailed p =>
      simp only [step]
      split
      · exact managedCleanUp_recovery_pres _ (by simpa using h)
      · exact h
    | workerRemoved =>
      simp only [step, managedRemoveWorker]
      exact managedCleanUp_recovery_pres _ (by simpa using h)
    | recoveryFinished werr =>
      simp only [step]
      split
      · cases werr with
        | some e' =>
          simp only [threadedRecoverLogicalData]
          exact managedCleanUp_recovery_pres _ (by simp [fail])
        | none =>
          simp only [threadedRecoverLogicalData]
          exact managedCleanUp_recovery_pres _ (by simp [managedFinalizeRecovery])
      · exact h

/-- Witness for C10: failing a fresh chunk nils the destination, and the
failed-implies-recovery-complete implication is preserved by a worker
removal from a fresh (trivially invariant) chunk. -/
theorem c10_witness :
    (fail ChunkErr.destinationWrite (initialUDC ⟨3, 5, none⟩ 10 0 3 1)).destination = none ∧
    ((step Event.workerRemoved (initialUDC ⟨3, 5, none⟩ 10 0 3 1)).failed = true →
      (step Event.workerRemoved (initialUDC ⟨3, 5, none⟩ 10 0 3 1)).recoveryComplete = true) :=
  ⟨(c10_fail_postconditions.1 ChunkErr.destinationWrite
      (initialUDC ⟨3, 5, none⟩ 10 0 3 1)).2.2.2,
    c10_fail_postconditions.2 Event.workerRemoved
      (initialUDC ⟨3, 5, none⟩ 10 0 3 1) (by decide)⟩

end DownloadChunk
